import Mathlib

/-!
Verification of the netgauge statistics core: per-OS counter collection,
SNMP WAN polling, wraparound-safe delta tracking, and rate formatting.
Each Rust function under scrutiny is shallowly embedded as an executable
Lean definition; `u64` counters are modelled as `Nat` (every operation the
sources apply to them — comparison, saturating subtraction — agrees with
`Nat` arithmetic on values below `2^64`).
-/

namespace NetGauge

/-- Interface kind, from src/net/net.rs (`InterfaceType`). -/
inductive InterfaceType
  | Net
  | Wan
deriving DecidableEq, Repr

/-- Raw cumulative counter sample, from src/net/net.rs (`InterfaceStats`). -/
structure InterfaceStats where
  interface : String
  rx_bytes : Nat
  tx_bytes : Nat
  kind : InterfaceType
deriving DecidableEq, Repr

/-- Per-tick delta record, from src/net/tracker.rs (`NetDelta`). -/
structure NetDelta where
  interface : String
  rx_delta : Nat
  tx_delta : Nat
  kind : InterfaceType
deriving DecidableEq, Repr

/-- Tracker state, from src/net/tracker.rs: `previous: HashMap<String, (u64, u64)>`,
modelled as a lookup function (the code only uses `get` and `insert`). -/
structure DeltaTracker where
  previous : String → Option (Nat × Nat)

/-- `DeltaTracker::new` (src/net/tracker.rs:18-22): empty map. -/
def DeltaTracker.new : DeltaTracker := ⟨fun _ => none⟩

/-- Default element used only to state positional facts via `List.getD`. -/
def dNil : NetDelta := ⟨"", 0, 0, InterfaceType.Net⟩

/-- The delta pushed for one sample `s` by the loop body of `DeltaTracker::update`
(src/net/tracker.rs:27-45), given the tracker state at that point: the stored
pair with `unwrap_or((s.rx_bytes, s.tx_bytes))` as baseline, then
`saturating_sub` on each counter (`Nat` subtraction is exactly `u64`
saturating subtraction). -/
def mkDelta (t : DeltaTracker) (s : InterfaceStats) : NetDelta :=
  let p := (t.previous s.interface).getD (s.rx_bytes, s.tx_bytes)
  ⟨s.interface, s.rx_bytes - p.1, s.tx_bytes - p.2, s.kind⟩

/-- The `self.previous.insert(s.interface, (s.rx_bytes, s.tx_bytes))` step of
the same loop body (src/net/tracker.rs:37-38). -/
def stepState (t : DeltaTracker) (s : InterfaceStats) : DeltaTracker :=
  ⟨fun n => if n = s.interface then some (s.rx_bytes, s.tx_bytes) else t.previous n⟩

/-- `DeltaTracker::update` (src/net/tracker.rs:24-49): one delta per input
sample in input order; the stored pair is replaced after each sample. The
mutated `&mut self` state is returned as the second component. -/
def DeltaTracker.update (t : DeltaTracker) : List InterfaceStats → List NetDelta × DeltaTracker
  | [] => ([], t)
  | s :: rest =>
    let r := DeltaTracker.update (stepState t s) rest
    (mkDelta t s :: r.1, r.2)

theorem update_nil (t : DeltaTracker) : t.update [] = ([], t) := rfl

theorem update_cons (t : DeltaTracker) (s : InterfaceStats) (rest : List InterfaceStats) :
    t.update (s :: rest) =
      (mkDelta t s :: ((stepState t s).update rest).1, ((stepState t s).update rest).2) := rfl

theorem update_length (t : DeltaTracker) (l : List InterfaceStats) :
    (t.update l).1.length = l.length := by
  induction l generalizing t with
  | nil => rfl
  | cons s rest ih => simp [update_cons, ih]

/-- The `i`-th delta is computed from the tracker state reached after the first
`i` samples of the batch. -/
theorem update_getD (t : DeltaTracker) (l : List InterfaceStats) (i : Nat) (s : InterfaceStats)
    (hs : l.get? i = some s) :
    (t.update l).1.getD i dNil = mkDelta ((t.update (l.take i)).2) s := by
  induction l generalizing t i with
  | nil => simp at hs
  | cons x rest ih =>
    cases i with
    | zero =>
      simp at hs
      subst hs
      simp [update_cons, update_nil]
    | succ n =>
      rw [List.get?_cons_succ] at hs
      simpa [update_cons] using ih (stepState t x) n hs

/-- Names absent from the batch keep their stored pair. -/
theorem previous_update_eq (t : DeltaTracker) (l : List InterfaceStats) (name : String)
    (h : ∀ s ∈ l, s.interface ≠ name) :
    ((t.update l).2).previous name = t.previous name := by
  induction l generalizing t with
  | nil => rfl
  | cons x rest ih =>
    rw [update_cons]
    rw [ih (stepState t x) (fun s hs => h s (List.mem_cons_of_mem x hs))]
    simp only [stepState]
    rw [if_neg (fun e => h x (List.mem_cons_self x rest) e.symm)]

theorem update_append (t : DeltaTracker) (xs ys : List InterfaceStats) :
    t.update (xs ++ ys) =
      ((t.update xs).1 ++ ((t.update xs).2.update ys).1, ((t.update xs).2.update ys).2) := by
  induction xs generalizing t with
  | nil => simp [update_nil]
  | cons x rest ih => simp [update_cons, ih]

/-- C1: every `DeltaTracker.update` call returns exactly one `NetDelta` per
input sample in the same relative order (same name and kind at each position),
and for a sample whose interface name is present in the tracker state — the
state at the moment that sample is processed; for batches without duplicate
names this is the state at call entry — with stored pair `(prx, ptx)`: the
delta is `current - previous` when `current ≥ previous` and `0` when
`current < previous`, independently for rx and tx. -/
theorem c1_update_deltas (t : DeltaTracker) (samples : List InterfaceStats) :
    (t.update samples).1.length = samples.length ∧
    (∀ i s, samples.get? i = some s →
      ((t.update samples).1.getD i dNil).interface = s.interface ∧
      ((t.update samples).1.getD i dNil).kind = s.kind) ∧
    (∀ i s prx ptx, samples.get? i = some s →
      ((t.update (samples.take i)).2).previous s.interface = some (prx, ptx) →
      (prx ≤ s.rx_bytes → ((t.update samples).1.getD i dNil).rx_delta = s.rx_bytes - prx) ∧
      (s.rx_bytes < prx → ((t.update samples).1.getD i dNil).rx_delta = 0) ∧
      (ptx ≤ s.tx_bytes → ((t.update samples).1.getD i dNil).tx_delta = s.tx_bytes - ptx) ∧
      (s.tx_bytes < ptx → ((t.update samples).1.getD i dNil).tx_delta = 0)) := by
  refine ⟨update_length t samples, ?_, ?_⟩
  · intro i s hs
    rw [update_getD t samples i s hs]
    exact ⟨rfl, rfl⟩
  · intro i s prx ptx hs hprev
    rw [update_getD t samples i s hs]
    refine ⟨fun _ => ?_, fun h => ?_, fun _ => ?_, fun h => ?_⟩
    · simp [mkDelta, hprev]
    · simp [mkDelta, hprev, Nat.sub_eq_zero_of_le (Nat.le_of_lt h)]
    · simp [mkDelta, hprev]
    · simp [mkDelta, hprev, Nat.sub_eq_zero_of_le (Nat.le_of_lt h)]

def t0 : DeltaTracker := ⟨fun n => if n = "eth0" then some (100, 200) else none⟩

def batch0 : List InterfaceStats := [⟨"eth0", 150, 180, InterfaceType.Net⟩]

theorem c1_update_deltas_witness :
    ((t0.update batch0).1.getD 0 dNil).rx_delta = 150 - 100 ∧
    ((t0.update batch0).1.getD 0 dNil).tx_delta = 0 := by
  have h := (c1_update_deltas t0 batch0).2.2 0 ⟨"eth0", 150, 180, InterfaceType.Net⟩
    100 200 rfl (by simp [update_nil, t0])
  exact ⟨h.1 (by decide), h.2.2.2 (by decide)⟩

/-- C3: a sample whose interface name has never been observed by the tracker
before it is processed (lookup yields `none`) gets `rx_delta = 0` and
`tx_delta = 0`, regardless of the absolute counter values. -/
theorem c3_first_seen_zero (t : DeltaTracker) (samples : List InterfaceStats)
    (i : Nat) (s : InterfaceStats) (hs : samples.get? i = some s)
    (hnew : ((t.update (samples.take i)).2).previous s.interface = none) :
    ((t.update samples).1.getD i dNil).rx_delta = 0 ∧
    ((t.update samples).1.getD i dNil).tx_delta = 0 := by
  rw [update_getD t samples i s hs]
  simp [mkDelta, hnew]

theorem c3_first_seen_zero_witness :
    ((DeltaTracker.new.update batch0).1.getD 0 dNil).rx_delta = 0 ∧
    ((DeltaTracker.new.update batch0).1.getD 0 dNil).tx_delta = 0 :=
  c3_first_seen_zero DeltaTracker.new batch0 0 ⟨"eth0", 150, 180, InterfaceType.Net⟩ rfl rfl

/-- C4: after `update`, for every sample in the batch that is the last
occurrence of its name, the stored pair equals that sample's raw counters —
the stored value is unconditionally replaced whether or not a counter
decreased. -/
theorem c4_state_replaced (t : DeltaTracker) (samples : List InterfaceStats)
    (i : Nat) (s : InterfaceStats) (hs : samples.get? i = some s)
    (hlast : ∀ s' ∈ samples.drop (i + 1), s'.interface ≠ s.interface) :
    ((t.update samples).2).previous s.interface = some (s.rx_bytes, s.tx_bytes) := by
  have h1 : (t.update samples).2 =
      (((t.update (samples.take (i + 1))).2).update (samples.drop (i + 1))).2 := by
    conv_lhs => rw [← List.take_append_drop (i + 1) samples]
    rw [update_append]
  rw [h1, previous_update_eq _ _ _ hlast]
  have hs' : samples[i]? = some s := by
    rw [← List.get?_eq_getElem?]
    exact hs
  have h2 : samples.take (i + 1) = samples.take i ++ [s] := by
    rw [List.take_succ, hs']
    rfl
  rw [h2, update_append]
  simp [update_cons, update_nil, stepState]

theorem c4_state_replaced_witness :
    ((t0.update batch0).2).previous "eth0" = some (150, 180) := by
  have h := c4_state_replaced t0 batch0 0 ⟨"eth0", 150, 180, InterfaceType.Net⟩ rfl
    (by simp [batch0])
  exact h

/-!
## Formatter (src/net/format.rs)

`human_bytes_per_sec` computes on `bytes as f64` and divides by powers of
1024. After the conversion, every `f64` operation the function performs is
exact: dividing a double by a power of two only changes the exponent (no
overflow or underflow is possible here), and Rust's fixed-precision rendering
rounds the exactly-represented dyadic value correctly with ties to even. The
one genuine rounding step is the `u64 → f64` conversion itself, which rounds
inputs at or above `2^53` to 53 significand bits; it is modelled by `toF64`,
and the rest of the function by exact arithmetic on the converted value.
-/

/-- Round `num / den` to the nearest integer, ties to even (IEEE-754
round-to-nearest-even, also the rounding Rust's `{:.N}` float formatting
applies to the exactly-represented quotient). -/
def roundHalfEven (num den : Nat) : Nat :=
  let q := num / den
  let r := num % den
  if 2 * r > den then q + 1
  else if 2 * r < den then q
  else if q % 2 = 0 then q else q + 1

/-- The value of `n as f64` for a `u64` value `n`: exact below `2^53`,
otherwise rounded to 53 significand bits, ties to even. -/
def toF64 (n : Nat) : Nat :=
  if n < 2 ^ 53 then n
  else roundHalfEven n (2 ^ (Nat.log2 n - 52)) * 2 ^ (Nat.log2 n - 52)

/-- Left-pad to two digits: the fractional part of a `{:.2}` rendering. -/
def pad2 (n : Nat) : String :=
  if n < 10 then "0" ++ toString n else toString n

/-- Render `num / den` with exactly two decimal places, as Rust's
`format!("{:.2}", num as f64 / den as f64)` does for exactly-represented
quotients. -/
def fmt2 (num den : Nat) : String :=
  let n := roundHalfEven (num * 100) den
  toString (n / 100) ++ "." ++ pad2 (n % 100)

/-- `human_bytes_per_sec` (src/net/format.rs:2-13): `let b = bytes as f64`,
then threshold tests and power-of-1024 divisions on the converted value. -/
def human_bytes_per_sec (bytes : Nat) : String :=
  if toF64 bytes < 1024 then toString (toF64 bytes) ++ " B/s"
  else if toF64 bytes < 1024 * 1024 then fmt2 (toF64 bytes) 1024 ++ " KB/s"
  else if toF64 bytes < 1024 * 1024 * 1024 then fmt2 (toF64 bytes) (1024 * 1024) ++ " MB/s"
  else fmt2 (toF64 bytes) (1024 * 1024 * 1024) ++ " GB/s"

/-- `human_bits_per_sec` (src/net/format.rs:16-27): `bytes as f64 * 8.0`
(the multiplication by 8 is exact in `f64`). -/
def human_bits_per_sec (bytes : Nat) : String :=
  if toF64 bytes * 8 < 1024 then toString (toF64 bytes * 8) ++ " bps"
  else if toF64 bytes * 8 < 1024 * 1024 then fmt2 (toF64 bytes * 8) 1024 ++ " Kbps"
  else if toF64 bytes * 8 < 1024 * 1024 * 1024 then fmt2 (toF64 bytes * 8) (1024 * 1024) ++ " Mbps"
  else fmt2 (toF64 bytes * 8) (1024 * 1024 * 1024) ++ " Gbps"

theorem roundHalfEven_ge_div (num den : Nat) : num / den ≤ roundHalfEven num den := by
  simp only [roundHalfEven]
  split_ifs <;> omega

theorem toF64_eq_of_lt (n : Nat) (h : n < 2 ^ 53) : toF64 n = n := by
  rw [toF64, if_pos h]

theorem toF64_ge (n : Nat) (h : 2 ^ 53 ≤ n) : 2 ^ 52 ≤ toF64 n := by
  rw [toF64, if_neg (by omega)]
  have hn0 : n ≠ 0 := by omega
  have hlog : 53 ≤ Nat.log2 n := (Nat.le_log2 hn0).mpr h
  have hself : 2 ^ Nat.log2 n ≤ n := Nat.log2_self_le hn0
  have hsum : 52 + (Nat.log2 n - 52) = Nat.log2 n := by omega
  have hpow : 2 ^ 52 * 2 ^ (Nat.log2 n - 52) ≤ n := by
    calc 2 ^ 52 * 2 ^ (Nat.log2 n - 52) = 2 ^ (52 + (Nat.log2 n - 52)) := (pow_add 2 52 _).symm
    _ = 2 ^ Nat.log2 n := by rw [hsum]
    _ ≤ n := hself
  have hdiv : 2 ^ 52 ≤ n / 2 ^ (Nat.log2 n - 52) :=
    (Nat.le_div_iff_mul_le (by positivity)).mpr hpow
  calc (2 : Nat) ^ 52 ≤ n / 2 ^ (Nat.log2 n - 52) := hdiv
  _ ≤ roundHalfEven n (2 ^ (Nat.log2 n - 52)) := roundHalfEven_ge_div _ _
  _ ≤ roundHalfEven n (2 ^ (Nat.log2 n - 52)) * 2 ^ (Nat.log2 n - 52) :=
      Nat.le_mul_of_pos_right _ (by positivity)

theorem pad2_length (n : Nat) (h : n < 100) : (pad2 n).length = 2 := by
  have : ∀ m, m < 100 → (pad2 m).length = 2 := by decide
  exact this n h

/-- C6: `human_bytes_per_sec` thresholds at 1024, 1024², 1024³ on the `f64`
value of the input (exact for inputs below `2^53`, which covers every
threshold decision boundary); below 1024 the input renders as a whole number
with suffix " B/s"; otherwise with exactly two decimal places (an integer
part, a dot, two fractional digits) and suffix " KB/s", " MB/s" or " GB/s"
using the corresponding power-of-1024 divisor — in the GB branch applied to
the converted value `toF64 b`, the value format.rs actually divides; and the
three concrete examples from the spec hold. -/
theorem c6_human_bytes (b : Nat) :
    (human_bytes_per_sec 0 = "0 B/s" ∧
      human_bytes_per_sec 1536 = "1.50 KB/s" ∧
      human_bytes_per_sec 1073741824 = "1.00 GB/s") ∧
    (b < 2 ^ 53 → toF64 b = b) ∧
    (b < 1024 → human_bytes_per_sec b = toString b ++ " B/s") ∧
    (1024 ≤ b → b < 1024 * 1024 →
      human_bytes_per_sec b =
        toString (roundHalfEven (b * 100) 1024 / 100) ++ "." ++
          pad2 (roundHalfEven (b * 100) 1024 % 100) ++ " KB/s" ∧
      (pad2 (roundHalfEven (b * 100) 1024 % 100)).length = 2) ∧
    (1024 * 1024 ≤ b → b < 1024 * 1024 * 1024 →
      human_bytes_per_sec b =
        toString (roundHalfEven (b * 100) (1024 * 1024) / 100) ++ "." ++
          pad2 (roundHalfEven (b * 100) (1024 * 1024) % 100) ++ " MB/s" ∧
      (pad2 (roundHalfEven (b * 100) (1024 * 1024) % 100)).length = 2) ∧
    (1024 * 1024 * 1024 ≤ b →
      human_bytes_per_sec b =
        toString (roundHalfEven (toF64 b * 100) (1024 * 1024 * 1024) / 100) ++ "." ++
          pad2 (roundHalfEven (toF64 b * 100) (1024 * 1024 * 1024) % 100) ++ " GB/s" ∧
      (pad2 (roundHalfEven (toF64 b * 100) (1024 * 1024 * 1024) % 100)).length = 2) := by
  refine ⟨⟨by decide, by decide, by decide⟩, ?_, ?_, ?_, ?_, ?_⟩
  · intro h
    exact toF64_eq_of_lt b h
  · intro h
    have hf : toF64 b = b := toF64_eq_of_lt b (by omega)
    rw [human_bytes_per_sec, hf, if_pos h]
  · intro h1 h2
    have hf : toF64 b = b := toF64_eq_of_lt b (by omega)
    rw [human_bytes_per_sec, hf, if_neg (by omega), if_pos h2]
    exact ⟨rfl, pad2_length _ (Nat.mod_lt _ (by norm_num))⟩
  · intro h1 h2
    have hf : toF64 b = b := toF64_eq_of_lt b (by omega)
    rw [human_bytes_per_sec, hf, if_neg (by omega), if_neg (by omega), if_pos h2]
    exact ⟨rfl, pad2_length _ (Nat.mod_lt _ (by norm_num))⟩
  · intro h1
    have hge : 1024 * 1024 * 1024 ≤ toF64 b := by
      by_cases hb : b < 2 ^ 53
      · rw [toF64_eq_of_lt b hb]
        exact h1
      · calc (1024 * 1024 * 1024 : Nat) ≤ 2 ^ 52 := by norm_num
        _ ≤ toF64 b := toF64_ge b (by omega)
    rw [human_bytes_per_sec, if_neg (by omega), if_neg (by omega), if_neg (by omega)]
    exact ⟨rfl, pad2_length _ (Nat.mod_lt _ (by norm_num))⟩

theorem c6_human_bytes_witness :
    (2048 < 1024 * 1024) ∧ human_bytes_per_sec 2048 = "2.00 KB/s" := by
  have h := ((c6_human_bytes 2048).2.2.2.1 (by decide) (by decide)).1
  exact ⟨by decide, by rw [h]; decide⟩

/-!
## SNMP WAN collector (src/net/wan/snmp.rs)

The network is abstracted as an environment: whether a v2c session can be
created, and the outcome of a single-value GET per OID. The code ignores the
OID component of each returned varbind (`_oid`), so varbinds are modelled as
the list of returned values. Rust panics (`expect`, `unwrap`) are modelled as
an explicit `panic` result.
-/

/-- SNMP wire value, from the `snmp2::Value` cases the code distinguishes. -/
inductive SnmpValue
  | Counter32 (v : Nat)
  | Counter64 (v : Nat)
  | OctetString (s : String)
  | OtherValue
deriving DecidableEq, Repr

/-- Outcome of a fallible Rust computation that may `panic!` via
`expect`/`unwrap`. -/
inductive PanicOr (α : Type)
  | panic (msg : String)
  | ok (a : α)
deriving DecidableEq, Repr

/-- SNMP network environment: session creation outcome and per-OID GET
outcome (`Except` models `snmp2`'s `Result`; the payload is the varbind value
list of the response). -/
structure SnmpEnv where
  sessionOk : Bool
  get : List Nat → Except Unit (List SnmpValue)

/-- Receive-octets OID `1.3.6.1.2.1.2.2.1.10.<if_index>` (snmp.rs:15). -/
def rxOid (if_index : Nat) : List Nat := [1, 3, 6, 1, 2, 1, 2, 2, 1, 10, if_index]

/-- Transmit-octets OID `1.3.6.1.2.1.2.2.1.16.<if_index>` (snmp.rs:16). -/
def txOid (if_index : Nat) : List Nat := [1, 3, 6, 1, 2, 1, 2, 2, 1, 16, if_index]

/-- The counter-decoding match of snmp.rs:24-28 / 31-35: first varbind value
if it is a 32-bit or 64-bit counter, otherwise 0. -/
def decodeCounter : List SnmpValue → Nat
  | SnmpValue.Counter32 v :: _ => v
  | SnmpValue.Counter64 v :: _ => v
  | _ => 0

/-- `fetch_wan_stats` (src/net/wan/snmp.rs:5-44). Session creation failure
hits `.expect("Failed to create SNMP session")` and a failed GET hits
`.unwrap()`: both are panics, not recovered errors. -/
def fetch_wan_stats (env : SnmpEnv) (if_index : Nat) (iface_name : String) :
    PanicOr InterfaceStats :=
  if env.sessionOk = false then PanicOr.panic "Failed to create SNMP session"
  else
    match env.get (rxOid if_index) with
    | Except.error _ => PanicOr.panic "called `Result::unwrap()` on an `Err` value"
    | Except.ok vb1 =>
      match env.get (txOid if_index) with
      | Except.error _ => PanicOr.panic "called `Result::unwrap()` on an `Err` value"
      | Except.ok vb2 =>
        PanicOr.ok ⟨iface_name, decodeCounter vb1, decodeCounter vb2, InterfaceType.Wan⟩

/-- An environment whose session opens but whose every GET request fails. -/
def envGetFails : SnmpEnv := ⟨true, fun _ => Except.error ()⟩

/-- C2 counterexample: with a working session but a failing GET on the rx
counter OID, `fetch_wan_stats` panics (the `.unwrap()` at snmp.rs:24) instead
of returning normally with a zero counter, refuting the claim that a request
failure resolves to 0 and that no fatal path exists. -/
theorem c2_counterexample :
    fetch_wan_stats envGetFails 26 "WAN" =
      PanicOr.panic "called `Result::unwrap()` on an `Err` value" ∧
    fetch_wan_stats envGetFails 26 "WAN" ≠
      PanicOr.ok ⟨"WAN", 0, 0, InterfaceType.Wan⟩ := by
  constructor
  · rfl
  · intro h
    simp [fetch_wan_stats, envGetFails] at h

/-- C2 (amended): when the session opens and both GETs succeed, a response
value whose wire type is neither a 32-bit nor a 64-bit counter (or an empty
varbind list) yields 0 for that counter and the call returns normally; a
session-creation failure or a failed GET request, however, panics
(`expect`/`unwrap`) rather than resolving to 0. -/
theorem c2_fetch_wan (env : SnmpEnv) (if_index : Nat) (iface_name : String) :
    (env.sessionOk = false →
      fetch_wan_stats env if_index iface_name =
        PanicOr.panic "Failed to create SNMP session") ∧
    (∀ e, env.sessionOk = true → env.get (rxOid if_index) = Except.error e →
      fetch_wan_stats env if_index iface_name =
        PanicOr.panic "called `Result::unwrap()` on an `Err` value") ∧
    (∀ vb1 e, env.sessionOk = true →
      env.get (rxOid if_index) = Except.ok vb1 →
      env.get (txOid if_index) = Except.error e →
      fetch_wan_stats env if_index iface_name =
        PanicOr.panic "called `Result::unwrap()` on an `Err` value") ∧
    (∀ vb1 vb2, env.sessionOk = true →
      env.get (rxOid if_index) = Except.ok vb1 →
      env.get (txOid if_index) = Except.ok vb2 →
      fetch_wan_stats env if_index iface_name =
        PanicOr.ok ⟨iface_name, decodeCounter vb1, decodeCounter vb2, InterfaceType.Wan⟩) ∧
    (∀ vb, (∀ v, vb.head? = some v →
        (∀ n, v ≠ SnmpValue.Counter32 n) ∧ (∀ n, v ≠ SnmpValue.Counter64 n)) →
      decodeCounter vb = 0) := by
  refine ⟨?_, ?_, ?_, ?_, ?_⟩
  · intro h
    simp [fetch_wan_stats, h]
  · intro e h1 h2
    simp [fetch_wan_stats, h1, h2]
  · intro vb1 e h1 h2 h3
    simp [fetch_wan_stats, h1, h2, h3]
  · intro vb1 vb2 h1 h2 h3
    simp [fetch_wan_stats, h1, h2, h3]
  · intro vb h
    match vb with
    | [] => rfl
    | SnmpValue.Counter32 v :: _ => exact absurd rfl ((h _ rfl).1 v)
    | SnmpValue.Counter64 v :: _ => exact absurd rfl ((h _ rfl).2 v)
    | SnmpValue.OctetString s :: _ => rfl
    | SnmpValue.OtherValue :: _ => rfl

/-- An environment answering every GET with a non-counter value. -/
def envOctet : SnmpEnv := ⟨true, fun _ => Except.ok [SnmpValue.OctetString "x"]⟩

theorem c2_fetch_wan_witness :
    fetch_wan_stats envOctet 26 "WAN" =
      PanicOr.ok ⟨"WAN", 0, 0, InterfaceType.Wan⟩ := by
  have h := (c2_fetch_wan envOctet 26 "WAN").2.2.2.1 [SnmpValue.OctetString "x"]
    [SnmpValue.OctetString "x"] rfl rfl rfl
  simpa [decodeCounter] using h

/-- Substring test, modelling Rust's `str::contains` with a string pattern:
some drop of the haystack starts with the pattern. -/
def strContains (hay pat : String) : Bool :=
  (List.range (hay.data.length + 1)).any
    (fun k => (hay.data.drop k).take pat.data.length == pat.data)

/-- One linear probe pass over a list of candidate indices: return the first
index whose description (a successfully decoded GET of
`1.3.6.1.2.1.2.2.1.2.<i>`, abstracted as `descr i`) contains the pattern. -/
def probeDescr (descr : Nat → Option String) (pat : String) :
    List Nat → Option (Nat × String)
  | [] => none
  | i :: rest =>
    match descr i with
    | some d => if strContains d pat then some (i, d) else probeDescr descr pat rest
    | none => probeDescr descr pat rest

/-- Modelled from the spec: `detect_interface_index` is re-exported by
src/src/lib.rs:8 and called from the GUI poller, but its definition is not
among the provided sources. Per §4.2 it linearly probes the description OID
`1.3.6.1.2.1.2.2.1.2.<i>` for `i` in the ascending bounded range 1..50 (the
bound used by the repository's discovery scan) and returns the first
`(index, description)` whose description contains `name_pattern` as a
substring, or nothing. The network is abstracted as
`descr : Nat → Option String`, the decoded description at each index (`none`
for a failed request or absent interface). -/
def detect_interface_index (descr : Nat → Option String) (name_pattern : String) :
    Option (Nat × String) :=
  probeDescr descr name_pattern (List.range' 1 50)

theorem probe_some (descr : Nat → Option String) (pat : String) :
    ∀ n a i d, probeDescr descr pat (List.range' a n) = some (i, d) →
      a ≤ i ∧ i < a + n ∧ descr i = some d ∧ strContains d pat = true ∧
      ∀ j, a ≤ j → j < i → ∀ d', descr j = some d' → strContains d' pat = false := by
  intro n
  induction n with
  | zero => intro a i d h; simp [probeDescr] at h
  | succ m ih =>
    intro a i d h
    rw [List.range'_succ] at h
    rw [probeDescr] at h
    cases hda : descr a with
    | some d0 =>
      rw [hda] at h
      dsimp only at h
      by_cases hc : strContains d0 pat
      · rw [if_pos hc] at h
        injection h with h
        injection h with h1 h2
        subst h1; subst h2
        exact ⟨Nat.le_refl a, by omega, hda, hc, fun j hj1 hj2 => absurd hj1 (by omega)⟩
      · rw [if_neg hc] at h
        obtain ⟨g1, g2, g3, g4, g5⟩ := ih (a + 1) i d h
        refine ⟨by omega, by omega, g3, g4, fun j hj1 hj2 d' hd' => ?_⟩
        rcases Nat.eq_or_lt_of_le hj1 with he | hlt
        · rw [he] at hda
          rw [hda] at hd'
          injection hd' with hd'
          subst hd'
          simpa using hc
        · exact g5 j hlt hj2 d' hd'
    | none =>
      rw [hda] at h
      dsimp only at h
      obtain ⟨g1, g2, g3, g4, g5⟩ := ih (a + 1) i d h
      refine ⟨by omega, by omega, g3, g4, fun j hj1 hj2 d' hd' => ?_⟩
      rcases Nat.eq_or_lt_of_le hj1 with he | hlt
      · rw [he] at hda
        rw [hda] at hd'
        exact absurd hd' (by simp)
      · exact g5 j hlt hj2 d' hd'

theorem probe_none (descr : Nat → Option String) (pat : String) :
    ∀ n a, probeDescr descr pat (List.range' a n) = none →
      ∀ i, a ≤ i → i < a + n → ∀ d, descr i = some d → strContains d pat = false := by
  intro n
  induction n with
  | zero => intro a h i h1 h2; omega
  | succ m ih =>
    intro a h i h1 h2 d hd
    rw [List.range'_succ, probeDescr] at h
    cases hda : descr a with
    | some d0 =>
      rw [hda] at h
      dsimp only at h
      by_cases hc : strContains d0 pat
      · rw [if_pos hc] at h; exact absurd h (by simp)
      · rw [if_neg hc] at h
        rcases Nat.eq_or_lt_of_le h1 with he | hlt
        · rw [he] at hda
          rw [hda] at hd
          injection hd with hd
          subst hd
          simpa using hc
        · exact ih (a + 1) h i hlt (by omega) d hd
    | none =>
      rw [hda] at h
      dsimp only at h
      rcases Nat.eq_or_lt_of_le h1 with he | hlt
      · rw [he] at hda
        rw [hda] at hd
        exact absurd hd (by simp)
      · exact ih (a + 1) h i hlt (by omega) d hd

/-- The spec's discovery example: descriptions 1:"eth0", 2:"ppp0", 3:"ppp1". -/
def descr3 : Nat → Option String := fun i =>
  if i = 1 then some "eth0"
  else if i = 2 then some "ppp0"
  else if i = 3 then some "ppp1"
  else none

/-- C7: `detect_interface_index` probes indices 1..50 in ascending order and
returns the first `(index, description)` whose description contains the
pattern as a substring (every earlier probed index either failed to answer or
does not match), or nothing when no index in range matches; on descriptions
{1:"eth0", 2:"ppp0", 3:"ppp1"} with pattern "ppp" it returns `(2, "ppp0")`. -/
theorem c7_detect_interface_index (descr : Nat → Option String) (pat : String) :
    (∀ i d, detect_interface_index descr pat = some (i, d) →
      1 ≤ i ∧ i ≤ 50 ∧ descr i = some d ∧ strContains d pat = true ∧
      ∀ j, 1 ≤ j → j < i → ∀ d', descr j = some d' → strContains d' pat = false) ∧
    (detect_interface_index descr pat = none →
      ∀ i, 1 ≤ i → i ≤ 50 → ∀ d, descr i = some d → strContains d pat = false) ∧
    detect_interface_index descr3 "ppp" = some (2, "ppp0") := by
  refine ⟨?_, ?_, by decide⟩
  · intro i d h
    obtain ⟨g1, g2, g3, g4, g5⟩ := probe_some descr pat 50 1 i d h
    exact ⟨g1, by omega, g3, g4, g5⟩
  · intro h i h1 h2 d hd
    exact probe_none descr pat 50 1 h i h1 (by omega) d hd

theorem c7_detect_interface_index_witness :
    1 ≤ 2 ∧ 2 ≤ 50 ∧ descr3 2 = some "ppp0" ∧ strContains "ppp0" "ppp" = true := by
  have h := (c7_detect_interface_index descr3 "ppp").1 2 "ppp0" (by decide)
  exact ⟨h.1, h.2.1, h.2.2.1, h.2.2.2.1⟩

/-!
## Poll orchestration publish step (netgauge-gui/src/main.rs:533-546)
-/

/-- Presentation record built by the polling loop (netgauge-gui/src/main.rs,
`InterfaceMetric`). -/
structure InterfaceMetric where
  name : String
  rx_speed : String
  tx_speed : String
  is_wan : Bool
deriving DecidableEq, Repr

/-- The state written by the polling loop's `update_global` closure each tick
(netgauge-gui/src/main.rs:533-543): if the computed metric list is empty it
substitutes a single "No interfaces found" placeholder entry, otherwise it
publishes the list unchanged. -/
def publishInterfaces (metrics : List InterfaceMetric) : List InterfaceMetric :=
  if metrics.isEmpty then
    [⟨"No interfaces found", "-- B/s", "-- B/s", false⟩]
  else metrics

/-- C8 counterexample: on a tick whose delta list is empty, the polling loop
publishes the placeholder entry, not the true empty list — the substitution
is done by the polling loop itself, refuting the claim. -/
theorem c8_counterexample :
    publishInterfaces [] = [⟨"No interfaces found", "-- B/s", "-- B/s", false⟩] ∧
    publishInterfaces [] ≠ [] := by
  constructor
  · rfl
  · intro h
    simp [publishInterfaces] at h

/-- C8 (amended): on every tick the polling loop publishes the computed list
unchanged when it is non-empty, but substitutes the single placeholder
"No interfaces found" entry itself when the list is empty. -/
theorem c8_publish (metrics : List InterfaceMetric) :
    (metrics = [] →
      publishInterfaces metrics = [⟨"No interfaces found", "-- B/s", "-- B/s", false⟩]) ∧
    (metrics ≠ [] → publishInterfaces metrics = metrics) := by
  constructor
  · intro h
    subst h
    rfl
  · intro h
    simp [publishInterfaces, h]

theorem c8_publish_witness :
    publishInterfaces [⟨"eth0", "1.50 KB/s", "0 B/s", false⟩] =
      [⟨"eth0", "1.50 KB/s", "0 B/s", false⟩] :=
  (c8_publish [⟨"eth0", "1.50 KB/s", "0 B/s", false⟩]).2 (by simp)

/-!
## Windows collector (src/net/net_windows.rs)

A `MIB_IF_TABLE2` row is abstracted as its decoded alias string (the UTF-16
decoding of `row.Alias` by `from_utf16_lossy` is representation-level; the
`trim_end_matches('\0')` step is kept) together with the two octet counters.
-/

/-- One row of the interface table. -/
structure MibRow where
  aliasName : String
  inOctets : Nat
  outOctets : Nat
deriving DecidableEq, Repr

/-- `trim_end_matches('\0')` (net_windows.rs:28). -/
def trimTrailingNulls (s : String) : String :=
  ⟨(s.data.reverse.dropWhile (fun c => c = Char.ofNat 0)).reverse⟩

/-- The sample built from one kept row (net_windows.rs:35-40). -/
def rowSample (r : MibRow) : InterfaceStats :=
  ⟨trimTrailingNulls r.aliasName, r.inOctets, r.outOctets, InterfaceType.Net⟩

/-- `fetch_net_stats` for Windows (src/net/net_windows.rs:11-45): iterate the
table rows; skip a row iff the selection is non-empty and does not contain the
row's decoded name (`!selected.is_empty() && !selected.contains(&name)`). -/
def fetch_net_stats_win (selected : List String) : List MibRow → List InterfaceStats
  | [] => []
  | row :: rest =>
    if selected.isEmpty = false ∧ selected.contains (trimTrailingNulls row.aliasName) = false then
      fetch_net_stats_win selected rest
    else rowSample row :: fetch_net_stats_win selected rest

/-- C9: for the Windows interface-table collector, an empty selection keeps
every row (one sample per row, "select all"), and a non-empty selection keeps
exactly the rows whose decoded name is a member of the selection, one sample
per kept row, in table order. -/
theorem c9_windows_selection (selected : List String) (rows : List MibRow) :
    (selected = [] → fetch_net_stats_win selected rows = rows.map rowSample) ∧
    (selected ≠ [] → fetch_net_stats_win selected rows =
      (rows.filter (fun r => selected.contains (trimTrailingNulls r.aliasName))).map rowSample) := by
  induction rows with
  | nil => exact ⟨fun _ => rfl, fun _ => rfl⟩
  | cons row rest ih =>
    constructor
    · intro h
      subst h
      rw [fetch_net_stats_win, if_neg (by simp), List.map_cons]
      rw [ih.1 rfl]
    · intro h
      rw [fetch_net_stats_win]
      by_cases hc : selected.contains (trimTrailingNulls row.aliasName)
      · rw [if_neg (fun hcon => by simp [hc] at hcon; exact hcon.2 (List.mem_of_elem_eq_true hc)),
          List.filter_cons, if_pos (by simpa using hc)]
        rw [List.map_cons, ih.2 h]
      · rw [if_pos ⟨by simpa [List.isEmpty_iff] using h, by simpa using hc⟩]
        rw [List.filter_cons, if_neg (by simpa using hc)]
        exact ih.2 h

theorem c9_windows_selection_witness :
    fetch_net_stats_win ["eth0"] [⟨"eth0", 10, 20⟩, ⟨"lo", 1, 2⟩] =
      [⟨"eth0", 10, 20, InterfaceType.Net⟩] := by
  have h := (c9_windows_selection ["eth0"] [⟨"eth0", 10, 20⟩, ⟨"lo", 1, 2⟩]).2 (by simp)
  exact h.trans (by decide)

/-!
## Linux collector (src/net/net_linux.rs)

The text read from /proc/net/dev is abstracted as the `content` argument (an
unreadable file returns the empty list before any parsing). Rust's string
primitives (`lines`, `split(':')`, `split_whitespace`, `trim`,
`parse::<u64>`) are embedded as structurally recursive functions over the
character list of the string so that every definition evaluates inside the
kernel.
-/

/-- Split a character list at every occurrence of `c` (Rust `str::split(c)`);
empty pieces are kept. `acc` holds the reversed current piece. -/
def splitOnChar (c : Char) : List Char → List Char → List (List Char)
  | [], acc => [acc.reverse]
  | x :: xs, acc =>
    if x = c then acc.reverse :: splitOnChar c xs []
    else splitOnChar c xs (x :: acc)

/-- Whitespace trim of both ends (Rust `str::trim`). -/
def trimChars (l : List Char) : List Char :=
  ((l.dropWhile Char.isWhitespace).reverse.dropWhile Char.isWhitespace).reverse

/-- Rust `str::trim`. -/
def strTrim (s : String) : String := ⟨trimChars s.data⟩

/-- Rust `str::split(':')` producing strings. -/
def strSplitColon (s : String) : List String :=
  (splitOnChar ':' s.data []).map (fun l => ⟨l⟩)

/-- Field collector for `split_whitespace`: maximal runs of non-whitespace
characters; `acc` holds the reversed current run. -/
def swFields : List Char → List Char → List (List Char)
  | [], acc => if acc.isEmpty then [] else [acc.reverse]
  | x :: xs, acc =>
    if Char.isWhitespace x then
      if acc.isEmpty then swFields xs [] else acc.reverse :: swFields xs []
    else swFields xs (x :: acc)

/-- Rust `str::split_whitespace`. -/
def splitWhitespace (s : String) : List String := (swFields s.data []).map (fun l => ⟨l⟩)

/-- Rust `str::lines`: split on `'\n'`, drop the final empty piece produced
by a trailing newline, and strip one trailing `'\r'` per line. -/
def rustLines (s : String) : List String :=
  let parts := splitOnChar '\n' s.data []
  let parts2 := if parts.getLast? = some [] then parts.dropLast else parts
  parts2.map (fun l => ⟨if l.getLast? = some '\r' then l.dropLast else l⟩)

/-- Rust `str::parse::<u64>()`: an optional leading `'+'`, then one or more
ASCII digits, with a value below `2^64`; anything else is an error. -/
def parseU64 (s : String) : Option Nat :=
  let t := match s.data with
    | '+' :: rest => rest
    | l => l
  if t.isEmpty then none
  else if t.all Char.isDigit = false then none
  else
    let v := t.foldl (fun a c => a * 10 + (c.toNat - 48)) 0
    if v < 2 ^ 64 then some v else none

/-- Modelled from the spec: `InterfaceSet::matches` is called at
net_linux.rs:23 but is not defined among the provided sources
(`InterfaceSet` is a plain string set); §4.1 specifies the check as
membership — "lines whose name is not in `selection` are skipped". -/
def selMatches (selected : List String) (iface : String) : Bool :=
  selected.contains iface

/-- The `for line in content.lines().skip(2)` loop of `fetch_net_stats`
(src/net/net_linux.rs:13-45) applied to the remaining lines: trim the line,
split on `':'`, take the trimmed text before the first colon as the name,
skip unselected names, split the text after the first colon on whitespace,
skip lines with fewer than 16 fields, otherwise push one sample with field 0
as rx and field 8 as tx (`parse().unwrap_or(0)`). -/
def linuxGo (selected : List String) : List String → List InterfaceStats
  | [] => []
  | line :: rest =>
    match strSplitColon (strTrim line) with
    | [] => linuxGo selected rest
    | ifacePart :: restParts =>
      if selMatches selected (strTrim ifacePart) = false then linuxGo selected rest
      else
        match restParts with
        | [] => linuxGo selected rest
        | d :: _ =>
          if (splitWhitespace d).length < 16 then linuxGo selected rest
          else
            ⟨strTrim ifacePart, (parseU64 ((splitWhitespace d).getD 0 "")).getD 0,
              (parseU64 ((splitWhitespace d).getD 8 "")).getD 0, InterfaceType.Net⟩ ::
              linuxGo selected rest

/-- `fetch_net_stats` for Linux (src/net/net_linux.rs:5-48) over the counter
file text. -/
def fetch_net_stats (selected : List String) (content : String) : List InterfaceStats :=
  linuxGo selected ((rustLines content).drop 2)

/-- The per-line parsing rule as the spec states it: the interface name is
the trimmed text before the colon; a line whose name is not selected is
skipped; a line with fewer than 16 whitespace-separated fields after the
colon is skipped; every other line yields one sample with field index 0 as rx
bytes and field index 8 as tx bytes. -/
def parseLineSpec (selected : List String) (line : String) : Option InterfaceStats :=
  if selMatches selected (strTrim ((strSplitColon (strTrim line)).headD "")) = false then none
  else if (splitWhitespace
      (((strSplitColon (strTrim line)).drop 1).headD "")).length < 16 then none
  else
    some ⟨strTrim ((strSplitColon (strTrim line)).headD ""),
      (parseU64 ((splitWhitespace
        (((strSplitColon (strTrim line)).drop 1).headD "")).getD 0 "")).getD 0,
      (parseU64 ((splitWhitespace
        (((strSplitColon (strTrim line)).drop 1).headD "")).getD 8 "")).getD 0,
      InterfaceType.Net⟩

theorem splitWhitespace_empty : splitWhitespace "" = [] := rfl

theorem linuxGo_eq_filterMap (selected : List String) (ls : List String) :
    linuxGo selected ls = ls.filterMap (parseLineSpec selected) := by
  induction ls with
  | nil => rfl
  | cons line rest ih =>
    cases hp : strSplitColon (strTrim line) with
    | nil =>
      have hnone : parseLineSpec selected line = none := by
        rw [parseLineSpec, hp]
        simp [splitWhitespace_empty]
      rw [linuxGo, hp, List.filterMap_cons, hnone]
      dsimp only
      exact ih
    | cons ifacePart restParts =>
      by_cases hsel : selMatches selected (strTrim ifacePart) = false
      · have hnone : parseLineSpec selected line = none := by
          rw [parseLineSpec, hp]
          simp [hsel]
        rw [linuxGo, hp, List.filterMap_cons, hnone]
        dsimp only
        rw [if_pos hsel]
        exact ih
      · cases restParts with
        | nil =>
          have hnone : parseLineSpec selected line = none := by
            rw [parseLineSpec, hp]
            simp [hsel, splitWhitespace_empty]
          rw [linuxGo, hp, List.filterMap_cons, hnone]
          dsimp only
          rw [if_neg hsel]
          exact ih
        | cons d tailParts =>
          by_cases hlen : (splitWhitespace d).length < 16
          · have hnone : parseLineSpec selected line = none := by
              rw [parseLineSpec, hp]
              simp [hsel, hlen]
            rw [linuxGo, hp, List.filterMap_cons, hnone]
            dsimp only
            rw [if_neg hsel, if_pos hlen]
            exact ih
          · have hsome : parseLineSpec selected line =
                some ⟨strTrim ifacePart, (parseU64 ((splitWhitespace d).getD 0 "")).getD 0,
                  (parseU64 ((splitWhitespace d).getD 8 "")).getD 0, InterfaceType.Net⟩ := by
              rw [parseLineSpec, hp]
              simp [hsel, hlen]
            rw [linuxGo, hp, List.filterMap_cons, hsome]
            dsimp only
            rw [if_neg hsel, if_neg hlen, ih]

/-- C5: the Linux collector drops the first two header lines and processes
each remaining line independently and in file order by the per-line rule
`parseLineSpec`: the interface name is the trimmed text before the colon,
unselected names are skipped, a line with fewer than 16 whitespace-separated
fields after the colon is skipped without aborting the remaining lines, and
every other line yields exactly one sample with rx from field index 0 and tx
from field index 8. -/
theorem c5_fetch_net_stats_linux (selected : List String) (content : String) :
    fetch_net_stats selected content =
      ((rustLines content).drop 2).filterMap (parseLineSpec selected) :=
  linuxGo_eq_filterMap selected ((rustLines content).drop 2)

/-- C10: a selected line with at least 16 fields is emitted whether or not
its counter fields parse, with each counter taken as `parse().unwrap_or(0)`;
in particular, when the rx field (index 0) fails to parse as a 64-bit
unsigned integer the sample is still emitted with rx replaced by 0, and when
the tx field (index 8) fails to parse the sample is still emitted with tx
replaced by 0 — in each case indistinguishable from a true zero counter. -/
theorem c10_unparseable_field_zero (selected : List String) (line : String)
    (hsel : selMatches selected (strTrim ((strSplitColon (strTrim line)).headD "")) = true)
    (hlen : 16 ≤ (splitWhitespace
      (((strSplitColon (strTrim line)).drop 1).headD "")).length) :
    linuxGo selected [line] =
      [⟨strTrim ((strSplitColon (strTrim line)).headD ""),
        (parseU64 ((splitWhitespace
          (((strSplitColon (strTrim line)).drop 1).headD "")).getD 0 "")).getD 0,
        (parseU64 ((splitWhitespace
          (((strSplitColon (strTrim line)).drop 1).headD "")).getD 8 "")).getD 0,
        InterfaceType.Net⟩] ∧
    (parseU64 ((splitWhitespace
        (((strSplitColon (strTrim line)).drop 1).headD "")).getD 0 "") = none →
      linuxGo selected [line] =
        [⟨strTrim ((strSplitColon (strTrim line)).headD ""), 0,
          (parseU64 ((splitWhitespace
            (((strSplitColon (strTrim line)).drop 1).headD "")).getD 8 "")).getD 0,
          InterfaceType.Net⟩]) ∧
    (parseU64 ((splitWhitespace
        (((strSplitColon (strTrim line)).drop 1).headD "")).getD 8 "") = none →
      linuxGo selected [line] =
        [⟨strTrim ((strSplitColon (strTrim line)).headD ""),
          (parseU64 ((splitWhitespace
            (((strSplitColon (strTrim line)).drop 1).headD "")).getD 0 "")).getD 0,
          0, InterfaceType.Net⟩]) := by
  have h0 : linuxGo selected [line] =
      [⟨strTrim ((strSplitColon (strTrim line)).headD ""),
        (parseU64 ((splitWhitespace
          (((strSplitColon (strTrim line)).drop 1).headD "")).getD 0 "")).getD 0,
        (parseU64 ((splitWhitespace
          (((strSplitColon (strTrim line)).drop 1).headD "")).getD 8 "")).getD 0,
        InterfaceType.Net⟩] := by
    rw [linuxGo_eq_filterMap, List.filterMap_cons]
    have hsome : parseLineSpec selected line =
        some ⟨strTrim ((strSplitColon (strTrim line)).headD ""),
          (parseU64 ((splitWhitespace
            (((strSplitColon (strTrim line)).drop 1).headD "")).getD 0 "")).getD 0,
          (parseU64 ((splitWhitespace
            (((strSplitColon (strTrim line)).drop 1).headD "")).getD 8 "")).getD 0,
          InterfaceType.Net⟩ := by
      rw [parseLineSpec, if_neg (by rw [hsel]; decide), if_neg (by omega)]
    rw [hsome]
    rfl
  refine ⟨h0, fun hbad => ?_, fun hbad => ?_⟩
  · rw [h0, hbad]
    simp
  · rw [h0, hbad]
    simp

/-- A counter line whose rx field is not numeric. -/
def badLine : String := "eth0: abc 1 2 3 4 5 6 7 456 9 10 11 12 13 14 15"

/-- A counter line whose tx field is not numeric. -/
def badLine2 : String := "eth0: 123 1 2 3 4 5 6 7 xyz 9 10 11 12 13 14 15"

theorem c10_unparseable_field_zero_witness :
    linuxGo ["eth0"] [badLine] = [⟨"eth0", 0, 456, InterfaceType.Net⟩] ∧
    linuxGo ["eth0"] [badLine2] = [⟨"eth0", 123, 0, InterfaceType.Net⟩] := by
  have h1 := (c10_unparseable_field_zero ["eth0"] badLine
    (by decide) (by decide)).2.1 (by decide)
  have h2 := (c10_unparseable_field_zero ["eth0"] badLine2
    (by decide) (by decide)).2.2 (by decide)
  exact ⟨h1.trans (by decide), h2.trans (by decide)⟩

end NetGauge
